import Mathlib

/-
Verification of the execution-sync and extraction pipeline of the
AItelz dashboard backend (bolnaService / dataExtractionService /
googleSheetsService / encryptionService).

The JavaScript sources are shallowly embedded: JSON-ish runtime values
become the inductive `Val`, JS objects become ordered association lists
(`List (String × Val)`) with the object-spread operation modelled by
`objSet`/`spread` (replace-in-place on an existing key, append on a fresh
key, exactly as JS property assignment and spread behave), and external
collaborators (database lookups, the OpenAI backend, the Google Sheets
append, the system clock) become explicit environment parameters.
-/

set_option autoImplicit false

/-- A JavaScript runtime value as it occurs in the pipeline: undefined,
null, booleans, (rational) numbers, NaN, strings, objects and Dates. -/
inductive Val where
  | vundef
  | vnull
  | vbool (b : Bool)
  | vnum (q : Rat)
  | vnan
  | vstr (s : String)
  | vobj (o : List (String × Val))
  | vdate (t : Int)

/-- JS truthiness: undefined, null, false, 0, NaN and the empty string are
falsy; every other value (including every object and Date) is truthy. -/
def Val.truthy : Val → Bool
  | .vundef => false
  | .vnull => false
  | .vbool b => b
  | .vnum q => q != 0
  | .vnan => false
  | .vstr s => s != ""
  | .vobj _ => true
  | .vdate _ => true

/-- Whether a value is a string (JS `typeof v === 'string'`). -/
def Val.isStr : Val → Bool
  | .vstr _ => true
  | _ => false

/-- A JS object: key/value pairs in insertion order. -/
abbrev Obj := List (String × Val)

/-- The keys of an association list, in order. -/
def keys {α : Type} (m : List (String × α)) : List String :=
  m.map Prod.fst

/-- First-occurrence lookup in an association list (JS property read on an
object that, being a JS object, has no duplicate keys). -/
def olookup {α : Type} (m : List (String × α)) (k : String) : Option α :=
  match m with
  | [] => none
  | p :: rest => if p.1 = k then some p.2 else olookup rest k

/-- JS property assignment `m[k] = v`: if the key exists its value is
replaced in place (keeping the key's position), otherwise the pair is
appended at the end. This is also the per-key step of object spread. -/
def objSet {α : Type} (m : List (String × α)) (k : String) (v : α) : List (String × α) :=
  if k ∈ keys m then m.map (fun p => if p.1 = k then (k, v) else p) else m ++ [(k, v)]

/-- JS object spread `{...base, ...overlay}`: the overlay's entries are
assigned onto the base one by one, in order. -/
def spread {α : Type} (base overlay : List (String × α)) : List (String × α) :=
  overlay.foldl (fun acc p => objSet acc p.1 p.2) base

/-- JS property read `o[k]` on an object: `undefined` when absent. -/
def getProp (o : Obj) (k : String) : Val :=
  (olookup o k).getD Val.vundef

/-- JS `a || b` on values: `a` when truthy, otherwise `b`. -/
def jsOrV (a b : Val) : Val :=
  if a.truthy then a else b

/-- JS optional chaining `v?.k`: property read when `v` is an object,
`undefined` otherwise (matching `undefined`/`null` receivers; property
reads on primitives that occur in this pipeline also give `undefined`). -/
def optChain (v : Val) (k : String) : Val :=
  match v with
  | .vobj o => getProp o k
  | _ => Val.vundef

/-- Coerce a value to the string the pipeline stores for `transcript`
(`executionData.transcript || ''`); remote transcripts are strings or
absent, so non-string values collapse to the empty string. -/
def jsStrOrEmpty (v : Val) : String :=
  match v with
  | .vstr s => s
  | _ => ""

/-- JS `String.prototype.trim`: strip whitespace from both ends. Embedded
structurally (dropWhile from both ends) so that it evaluates on literals. -/
def jsTrim (s : String) : String :=
  String.mk (((s.data.dropWhile Char.isWhitespace).reverse.dropWhile Char.isWhitespace).reverse)


/-! ### Generic lemmas about `objSet` and `spread` -/

theorem keys_nil {α : Type} : keys ([] : List (String × α)) = [] := rfl

theorem keys_cons {α : Type} (p : String × α) (t : List (String × α)) :
    keys (p :: t) = p.1 :: keys t := rfl

theorem keys_append {α : Type} (a b : List (String × α)) :
    keys (a ++ b) = keys a ++ keys b := by
  simp [keys]

theorem notmem_keys_of_nodup_cons {α : Type} {p : String × α} {t : List (String × α)}
    (h : (keys (p :: t)).Nodup) : p.1 ∉ keys t := by
  rw [keys_cons, List.nodup_cons] at h
  exact h.1

theorem nodup_keys_tail {α : Type} {p : String × α} {t : List (String × α)}
    (h : (keys (p :: t)).Nodup) : (keys t).Nodup := by
  rw [keys_cons, List.nodup_cons] at h
  exact h.2

theorem olookup_append {α : Type} (a b : List (String × α)) (k : String) :
    olookup (a ++ b) k = (olookup a k).orElse (fun _ => olookup b k) := by
  induction a with
  | nil => simp [olookup]
  | cons p t ih =>
    by_cases h : p.1 = k <;> simp [olookup, h, ih]

theorem olookup_eq_none {α : Type} {m : List (String × α)} {k : String}
    (h : k ∉ keys m) : olookup m k = none := by
  induction m with
  | nil => rfl
  | cons p t ih =>
    rw [keys_cons] at h
    simp [List.mem_cons] at h
    have hp : ¬ p.1 = k := fun hh => h.1 hh.symm
    simp [olookup, hp]
    exact ih h.2

theorem mem_keys_of_olookup_some {α : Type} {m : List (String × α)} {k : String} {v : α}
    (h : olookup m k = some v) : k ∈ keys m := by
  by_contra hmem
  rw [olookup_eq_none hmem] at h
  cases h

theorem olookup_isSome_of_mem {α : Type} {m : List (String × α)} {k : String}
    (h : k ∈ keys m) : ∃ v, olookup m k = some v := by
  induction m with
  | nil => simp [keys] at h
  | cons p t ih =>
    by_cases hp : p.1 = k
    · exact ⟨p.2, by simp [olookup, hp]⟩
    · rw [keys_cons] at h
      rcases List.mem_cons.mp h with h | h
      · exact absurd h.symm hp
      · obtain ⟨v, hv⟩ := ih h
        exact ⟨v, by simp [olookup, hp, hv]⟩

theorem keys_map_replace {α : Type} (m : List (String × α)) (k : String) (v : α) :
    keys (m.map (fun p => if p.1 = k then (k, v) else p)) = keys m := by
  induction m with
  | nil => rfl
  | cons p t ih =>
    by_cases h : p.1 = k <;> simp [keys, h] at ih ⊢ <;> simpa [keys] using ih

theorem olookup_map_replace_self {α : Type} (m : List (String × α)) (k : String) (v : α)
    (h : k ∈ keys m) :
    olookup (m.map (fun p => if p.1 = k then (k, v) else p)) k = some v := by
  induction m with
  | nil => simp [keys] at h
  | cons p t ih =>
    by_cases hp : p.1 = k
    · simp [olookup, hp]
    · have hk : k ∈ keys t := by
        rw [keys_cons] at h
        rcases List.mem_cons.mp h with h | h
        · exact absurd h.symm hp
        · exact h
      simp [olookup, hp]
      exact ih hk

theorem olookup_map_replace_ne {α : Type} (m : List (String × α)) (k k' : String) (v : α)
    (h : k' ≠ k) :
    olookup (m.map (fun p => if p.1 = k then (k, v) else p)) k' = olookup m k' := by
  induction m with
  | nil => rfl
  | cons p t ih =>
    have hkk' : ¬ k = k' := fun hh => h hh.symm
    by_cases hp : p.1 = k
    · simp [olookup, hp, hkk', ih]
    · by_cases hp' : p.1 = k' <;> simp [olookup, hp, hp', hkk', h, ih]

theorem keys_objSet {α : Type} (m : List (String × α)) (k : String) (v : α) :
    keys (objSet m k v) = if k ∈ keys m then keys m else keys m ++ [k] := by
  unfold objSet
  split
  · simp [keys_map_replace]
  · simp [keys_append, keys]

theorem nodup_keys_objSet {α : Type} {m : List (String × α)} (k : String) (v : α)
    (h : (keys m).Nodup) : (keys (objSet m k v)).Nodup := by
  rw [keys_objSet]
  split
  · exact h
  · rename_i hk
    exact h.append (List.nodup_singleton k) (by
      intro a ha hab
      rw [List.mem_singleton] at hab
      exact hk (hab ▸ ha))

theorem olookup_objSet_self {α : Type} (m : List (String × α)) (k : String) (v : α) :
    olookup (objSet m k v) k = some v := by
  unfold objSet
  split
  · rename_i hk
    exact olookup_map_replace_self m k v hk
  · rename_i hk
    rw [olookup_append, olookup_eq_none hk]
    simp [olookup]

theorem olookup_objSet_ne {α : Type} (m : List (String × α)) (k k' : String) (v : α)
    (h : k' ≠ k) : olookup (objSet m k v) k' = olookup m k' := by
  unfold objSet
  split
  · exact olookup_map_replace_ne m k k' v h
  · rw [olookup_append]
    have hk : ¬ k = k' := fun hh => h hh.symm
    cases hm : olookup m k' with
    | none => simp [olookup, hk]
    | some w => simp

theorem spread_nil {α : Type} (b : List (String × α)) : spread b [] = b := rfl

theorem spread_cons {α : Type} (b : List (String × α)) (p : String × α)
    (z : List (String × α)) :
    spread b (p :: z) = spread (objSet b p.1 p.2) z := rfl

theorem spread_append {α : Type} (b x y : List (String × α)) :
    spread b (x ++ y) = spread (spread b x) y := by
  unfold spread
  exact List.foldl_append _ _ _ _

theorem olookup_spread {α : Type} (b z : List (String × α)) (k : String)
    (hz : (keys z).Nodup) :
    olookup (spread b z) k = (olookup z k).orElse (fun _ => olookup b k) := by
  induction z generalizing b with
  | nil => simp [spread_nil, olookup]
  | cons p z' ih =>
    rw [spread_cons, ih _ (nodup_keys_tail hz)]
    by_cases hk : k = p.1
    · rw [hk, olookup_eq_none (notmem_keys_of_nodup_cons hz), olookup_objSet_self]
      simp [olookup]
    · rw [olookup_objSet_ne _ _ _ _ hk]
      have hp : ¬ p.1 = k := fun h => hk h.symm
      simp [olookup, hp]

theorem keys_spread_subset {α : Type} (b z : List (String × α))
    (h : ∀ k ∈ keys z, k ∈ keys b) : keys (spread b z) = keys b := by
  induction z generalizing b with
  | nil => simp [spread_nil]
  | cons p z' ih =>
    rw [spread_cons]
    have hp : p.1 ∈ keys b := h p.1 (by rw [keys_cons]; exact List.mem_cons_self _ _)
    have hkeys : keys (objSet b p.1 p.2) = keys b := by
      rw [keys_objSet]; simp [hp]
    rw [ih _ (fun k hk => by
      rw [hkeys]
      exact h k (by rw [keys_cons]; exact List.mem_cons_of_mem _ hk))]
    exact hkeys

theorem nodup_keys_spread {α : Type} (b z : List (String × α))
    (h : (keys b).Nodup) : (keys (spread b z)).Nodup := by
  induction z generalizing b with
  | nil => simpa [spread_nil]
  | cons p z' ih =>
    rw [spread_cons]
    exact ih _ (nodup_keys_objSet _ _ h)

theorem assoc_ext {α : Type} (l₁ l₂ : List (String × α))
    (hk : keys l₁ = keys l₂) (hn : (keys l₁).Nodup)
    (hl : ∀ k, olookup l₁ k = olookup l₂ k) : l₁ = l₂ := by
  induction l₁ generalizing l₂ with
  | nil =>
    cases l₂ with
    | nil => rfl
    | cons q t =>
      rw [keys_nil, keys_cons] at hk
      cases hk
  | cons p t₁ ih =>
    cases l₂ with
    | nil =>
      rw [keys_cons, keys_nil] at hk
      cases hk
    | cons q t₂ =>
      rw [keys_cons, keys_cons] at hk
      injection hk with hpq htk
      have hv : p.2 = q.2 := by
        have h0 := hl p.1
        have e1 : olookup (p :: t₁) p.1 = some p.2 := by simp [olookup]
        have e2 : olookup (q :: t₂) p.1 = some q.2 := by simp [olookup, hpq.symm]
        rw [e1, e2] at h0
        exact Option.some.inj h0
      have hnt₁ : p.1 ∉ keys t₁ := notmem_keys_of_nodup_cons hn
      have hnt₂ : p.1 ∉ keys t₂ := by rw [← htk]; exact hnt₁
      have ht : t₁ = t₂ := by
        apply ih t₂ htk (nodup_keys_tail hn)
        intro k
        by_cases hkp : k = p.1
        · rw [hkp, olookup_eq_none hnt₁, olookup_eq_none hnt₂]
        · have h0 := hl k
          have h1 : ¬ p.1 = k := fun h => hkp h.symm
          have h2 : ¬ q.1 = k := by rw [← hpq]; exact h1
          simpa [olookup, h1, h2] using h0
      have hp : p = q := Prod.ext hpq hv
      rw [hp, ht]

theorem spread_keys_eq {α : Type} (b z : List (String × α))
    (hk : keys b = keys z) (hn : (keys z).Nodup) : spread b z = z := by
  have hsub : ∀ k ∈ keys z, k ∈ keys b := fun k h => by rw [hk]; exact h
  apply assoc_ext
  · rw [keys_spread_subset b z hsub, hk]
  · rw [keys_spread_subset b z hsub, hk]
    exact hn
  · intro k
    rw [olookup_spread _ _ _ hn]
    cases hz : olookup z k with
    | none =>
      have hmem : k ∉ keys z := fun hmem => by
        obtain ⟨v, hv⟩ := olookup_isSome_of_mem hmem
        rw [hv] at hz
        cases hz
      rw [olookup_eq_none (fun hb => hmem (hk ▸ hb))]
      simp [hz]
    | some v => simp [hz]

theorem spread_fresh {α : Type} (b w : List (String × α))
    (hn : (keys w).Nodup) (hf : ∀ k ∈ keys w, k ∉ keys b) :
    spread b w = b ++ w := by
  induction w generalizing b with
  | nil => simp [spread_nil]
  | cons p w' ih =>
    rw [spread_cons]
    have hpb : p.1 ∉ keys b := hf p.1 (by rw [keys_cons]; exact List.mem_cons_self _ _)
    have hset : objSet b p.1 p.2 = b ++ [p] := by
      unfold objSet
      simp [hpb]
    rw [hset, ih (b ++ [p]) (nodup_keys_tail hn)]
    · simp
    · intro k hk
      rw [keys_append]
      intro hmem
      rcases List.mem_append.mp hmem with hmb | hmp
      · exact hf k (by rw [keys_cons]; exact List.mem_cons_of_mem _ hk) hmb
      · have hkp : k = p.1 := by simpa [keys] using hmp
        exact notmem_keys_of_nodup_cons hn (hkp ▸ hk)

theorem map_replace_id {α : Type} (m : List (String × α)) (k : String) (v : α)
    (h : ∀ p ∈ m, p.1 ≠ k) :
    m.map (fun p => if p.1 = k then (k, v) else p) = m := by
  induction m with
  | nil => rfl
  | cons p t ih =>
    simp [h p (List.mem_cons_self _ _)]
    exact ih (fun q hq => h q (List.mem_cons_of_mem _ hq))

theorem objSet_append_left {α : Type} (a b : List (String × α)) (k : String) (v : α)
    (ha : k ∈ keys a) (hb : k ∉ keys b) :
    objSet (a ++ b) k v = objSet a k v ++ b := by
  unfold objSet
  have hmem : k ∈ keys (a ++ b) := by rw [keys_append]; exact List.mem_append.mpr (Or.inl ha)
  simp only [hmem, ha, if_true, List.map_append]
  rw [map_replace_id b k v (fun p hp hpk => hb (hpk ▸ List.mem_map_of_mem Prod.fst hp))]

theorem objSet_append_right {α : Type} (a b : List (String × α)) (k : String) (v : α)
    (ha : k ∉ keys a) :
    objSet (a ++ b) k v = a ++ objSet b k v := by
  unfold objSet
  by_cases hb : k ∈ keys b
  · have hmem : k ∈ keys (a ++ b) := by rw [keys_append]; exact List.mem_append.mpr (Or.inr hb)
    simp only [hmem, hb, if_true, List.map_append]
    rw [map_replace_id a k v (fun p hp hpk => ha (hpk ▸ List.mem_map_of_mem Prod.fst hp))]
  · have hmem : k ∉ keys (a ++ b) := by
      rw [keys_append]
      intro hm
      rcases List.mem_append.mp hm with hm | hm
      · exact ha hm
      · exact hb hm
    simp only [hmem, hb, if_false, List.append_assoc]

/-- Invariant of an object obtained by spreading something onto base `r`:
it decomposes into a block sharing `r`'s key sequence followed by a block
of fresh, pairwise distinct keys. -/
def SpreadShape {α : Type} (r y : List (String × α)) : Prop :=
  ∃ r' w, y = r' ++ w ∧ keys r' = keys r ∧ (keys w).Nodup ∧ ∀ k ∈ keys w, k ∉ keys r

theorem shape_self {α : Type} (r : List (String × α)) : SpreadShape r r :=
  ⟨r, [], by simp, rfl, by simp [keys], by simp [keys]⟩

theorem shape_objSet {α : Type} {r y : List (String × α)} (k : String) (v : α)
    (h : SpreadShape r y) : SpreadShape r (objSet y k v) := by
  obtain ⟨r', w, hy, hkr, hnw, hfw⟩ := h
  subst hy
  by_cases hk : k ∈ keys r'
  · have hkw : k ∉ keys w := fun hm => hfw k hm (hkr ▸ hk)
    rw [objSet_append_left r' w k v hk hkw]
    exact ⟨objSet r' k v, w, rfl, by rw [keys_objSet, if_pos hk]; exact hkr, hnw, hfw⟩
  · rw [objSet_append_right r' w k v hk]
    by_cases hw : k ∈ keys w
    · exact ⟨r', objSet w k v, rfl, hkr, by rw [keys_objSet]; simp [hw]; exact hnw,
        by rw [keys_objSet]; simp [hw]; exact hfw⟩
    · refine ⟨r', objSet w k v, rfl, hkr, ?_, ?_⟩
      · rw [keys_objSet]
        simp only [hw, if_false]
        exact hnw.append (List.nodup_singleton k) (by
          intro a ha hab
          rw [List.mem_singleton] at hab
          exact hw (hab ▸ ha))
      · rw [keys_objSet]
        simp only [hw, if_false]
        intro k' hk'
        rcases List.mem_append.mp hk' with hm | hm
        · exact hfw k' hm
        · rw [List.mem_singleton] at hm
          rw [hm, ← hkr]
          exact hk

theorem shape_spread {α : Type} {r y : List (String × α)} (z : List (String × α))
    (h : SpreadShape r y) : SpreadShape r (spread y z) := by
  induction z generalizing y with
  | nil => simpa [spread_nil]
  | cons p z' ih =>
    rw [spread_cons]
    exact ih (shape_objSet p.1 p.2 h)

theorem spread_of_shape {α : Type} {r y : List (String × α)}
    (hr : (keys r).Nodup) (h : SpreadShape r y) : spread r y = y := by
  obtain ⟨r', w, hy, hkr, hnw, hfw⟩ := h
  subst hy
  rw [spread_append]
  rw [spread_keys_eq r r' hkr.symm (hkr ▸ hr)]
  exact spread_fresh r' w hnw (fun k hk => by rw [hkr]; exact hfw k hk)

/-- Spreading the same base twice is absorbed: `{...r, ...{...r, ...z}}`
equals `{...r, ...z}` for any JS object `r` (whose keys, being a JS
object's, are distinct). -/
theorem spread_absorb {α : Type} (r z : List (String × α))
    (hr : (keys r).Nodup) : spread r (spread r z) = spread r z :=
  spread_of_shape hr (shape_spread z (shape_self r))

theorem spread_self {α : Type} (r : List (String × α))
    (hr : (keys r).Nodup) : spread r r = r := by
  have := spread_absorb r [] hr
  rwa [spread_nil] at this

/-! ### dataExtractionService (custom user-defined fields) -/

/-- One user-defined extraction field descriptor, as passed to the
extractor: the pair built in `processTranscriptForExtraction` from an
ExtractionField document (`field_name`, `description`). -/
structure FieldDesc where
  field_name : String
  description : String

/-- `sanitizeCustomValue`: a falsy or non-string value becomes the
sentinel; a string is trimmed and, when the trim is empty, also becomes
the sentinel (the empty string is falsy, so folding it into the
trim-empty test is equivalent to the source's two-step check). -/
def sanitizeCustomValue (value : Val) : String :=
  match value with
  | .vstr s => if jsTrim s = "" then "Not Found" else jsTrim s
  | _ => "Not Found"

/-- `getEmptyCustomFieldsData`: one sentinel entry per field, assigned in
order into a fresh object. -/
def getEmptyCustomFieldsData (customFields : List FieldDesc) : List (String × String) :=
  customFields.foldl (fun acc f => objSet acc f.field_name "Not Found") []

/-- The sanitize-and-collect loop at the end of `extractWithCustomFieldsAI`,
applied to the JSON object parsed out of the AI response. -/
def collectCustomFields (extractedData : Obj) (customFields : List FieldDesc) :
    List (String × String) :=
  customFields.foldl
    (fun acc f => objSet acc f.field_name (sanitizeCustomValue (getProp extractedData f.field_name)))
    []

/-- `extractWithCustomFields`. The AI backend is abstracted as
`ai : Option (Except Unit Obj)`: `none` when no OpenAI key is configured,
`some (.error ())` when the API call or the JSON parse of its response
fails (that failure is caught and mapped to the empty data), and
`some (.ok o)` for the JSON object recovered from the response. -/
def extractWithCustomFields (transcript : Val) (customFields : List FieldDesc)
    (ai : Option (Except Unit Obj)) : List (String × String) :=
  if !(transcript.truthy && transcript.isStr) then getEmptyCustomFieldsData customFields
  else if customFields.isEmpty then []
  else
    match ai with
    | none => getEmptyCustomFieldsData customFields
    | some (.error _) => getEmptyCustomFieldsData customFields
    | some (.ok parsed) => collectCustomFields parsed customFields

/-- Whether `extractWithCustomFields` reaches the OpenAI call: only when
the transcript passes the guards and a backend is configured. -/
def customFieldsCallsAI (transcript : Val) (customFields : List FieldDesc)
    (ai : Option (Except Unit Obj)) : Bool :=
  if !(transcript.truthy && transcript.isStr) then false
  else if customFields.isEmpty then false
  else ai.isSome

/-! ### dataExtractionService (legacy fixed doctor-info fields) -/

/-- The fixed five-field record returned by `extractDoctorInfo` (via AI,
or via the regex fallback — both paths are total at the interface, since
an AI failure is caught and answered by the regex extractor). -/
structure DoctorInfo where
  doctor_name : String
  clinic_hospital_name : String
  phone_number : String
  email_id : String
  city : String

/-- `hasValidData`: some extracted value is truthy and non-blank. -/
def hasValidData (i : DoctorInfo) : Bool :=
  [i.doctor_name, i.clinic_hospital_name, i.phone_number, i.email_id, i.city].any
    (fun v => v != "" && jsTrim v != "")

/-- The doctor-info record as the JS object stored under `doctor_info`. -/
def doctorObj (i : DoctorInfo) : Obj :=
  [("doctor_name", Val.vstr i.doctor_name),
   ("clinic_hospital_name", Val.vstr i.clinic_hospital_name),
   ("phone_number", Val.vstr i.phone_number),
   ("email_id", Val.vstr i.email_id),
   ("city", Val.vstr i.city)]

/-! ### The persisted Execution record -/

/-- Modelled from the spec: the Execution document (models/Execution.js is
not among the sources; section 3 of the spec lists its attributes). It
carries exactly the fields written by `upsertExecution`, plus the
store-assigned `_id`; re-saving writes these fields and nothing else. -/
structure Execution where
  _id : String
  bolna_execution_id : Val
  agent_id : String
  conversation_time : Val
  total_cost : Val
  status : Val
  telephony_provider : Val
  from_number : Val
  to_number : Val
  call_sid : Val
  extracted_data : Obj
  transcript : String
  metadata : Obj
  started_at : Option Val
  ended_at : Option Val

theorem foldl_objSet_eq_map {α : Type} (l : List FieldDesc) (g : FieldDesc → α)
    (acc : List (String × α))
    (hn : (l.map FieldDesc.field_name).Nodup)
    (hf : ∀ f ∈ l, f.field_name ∉ keys acc) :
    l.foldl (fun a f => objSet a f.field_name (g f)) acc
      = acc ++ l.map (fun f => (f.field_name, g f)) := by
  induction l generalizing acc with
  | nil => simp
  | cons f l' ih =>
    rw [List.foldl_cons]
    have hfa : f.field_name ∉ keys acc := hf f (List.mem_cons_self _ _)
    have hset : objSet acc f.field_name (g f) = acc ++ [(f.field_name, g f)] := by
      unfold objSet
      simp [hfa]
    rw [hset]
    rw [List.map_cons, List.nodup_cons] at hn
    rw [ih (acc ++ [(f.field_name, g f)]) hn.2]
    · simp
    · intro f' hf'
      rw [keys_append]
      intro hmem
      rcases List.mem_append.mp hmem with hm | hm
      · exact hf f' (List.mem_cons_of_mem _ hf') hm
      · have : f'.field_name = f.field_name := by simpa [keys] using hm
        exact hn.1 (this ▸ List.mem_map_of_mem FieldDesc.field_name hf')

/-! ### bolnaService — collaborator records and environments -/

/-- The fields of an Agent document read by the pipeline (`name`,
`client_id`); Agent documents come from the store, so values are unconstrained. -/
structure AgentRec where
  name : Val
  client_id : Val

/-- The fields of a Client document read by the delivery decision
(`google_authorized`, `google_sheet_id`). -/
structure ClientRec where
  google_authorized : Val
  google_sheet_id : Val

/-- What the sheet-delivery attempt inside the custom-fields
`processTranscriptForExtraction` did: the appendRow call succeeded, threw
(and was caught by the surrounding try/catch), or was skipped because the
user has no connected Google Sheet. -/
inductive DeliveryEvent where
  | sheetAppended
  | sheetFailed
  | sheetsNotConnected
  deriving DecidableEq, Repr

/-- Environment of the custom-fields extraction step: the database reads
(agent, active extraction fields sorted by order, client), the OpenAI
backend (configured flag and per-call outcome), the Google Sheets append
outcome, the SAVE_EMPTY_EXTRACTIONS flag, and the abstract ISO date/time
renderings of stored Date values. -/
structure CEnv where
  findAgent : String → Option AgentRec
  activeFields : Val → List FieldDesc
  findClient : Val → Option ClientRec
  aiConfigured : Bool
  aiRespond : String → List FieldDesc → Except Unit Obj
  appendRow : List Val → Except Unit Unit
  saveEmpty : Bool
  isoDatePart : Val → String
  isoTimePart : Val → String

/-- `processTranscriptForExtraction` (custom-fields version, the
BolnaService variant that drives user-defined extraction fields). Returns
the execution state after the call together with the delivery events; the
function is total because every failure inside it is caught (the append
failure locally, everything else by the surrounding try/catch, and no
other modelled step can throw). `now` is the clock value used for the
`_extraction_date` stamp. -/
def processCustom (env : CEnv) (now : Int) (e : Execution) :
    Execution × List DeliveryEvent :=
  if (getProp e.extracted_data "_extraction_processed").truthy then (e, [])
  else
    match env.findAgent e.agent_id with
    | none => (e, [])
    | some agent =>
      if !agent.client_id.truthy then (e, [])
      else
        let fields := env.activeFields agent.client_id
        if fields.isEmpty then (e, [])
        else
          let ai := if env.aiConfigured then some (env.aiRespond e.transcript fields) else none
          let extractedData := extractWithCustomFields (Val.vstr e.transcript) fields ai
          let hasValid := extractedData.any (fun p => p.2 != "Not Found")
          if hasValid || env.saveEmpty then
            let callDate := match e.started_at with
              | some v => env.isoDatePart v
              | none => ""
            let callTime := match e.started_at with
              | some v => env.isoTimePart v
              | none => ""
            let execId := if e.bolna_execution_id.truthy then e.bolna_execution_id
              else Val.vstr e._id
            let agentName := if agent.name.truthy then agent.name else Val.vstr ""
            let metadata : Obj :=
              [("Call_Date", Val.vstr callDate),
               ("Call_Time", Val.vstr callTime),
               ("Execution_ID", execId),
               ("Agent_Name", agentName)]
            let events :=
              match env.findClient agent.client_id with
              | some client =>
                if client.google_authorized.truthy && client.google_sheet_id.truthy then
                  let values :=
                    fields.map (fun f =>
                      match olookup extractedData f.field_name with
                      | some s => if s = "" then Val.vstr "Not Found" else Val.vstr s
                      | none => Val.vstr "Not Found")
                    ++ [Val.vstr callDate, Val.vstr callTime, execId, agentName]
                  match env.appendRow values with
                  | .ok _ => [DeliveryEvent.sheetAppended]
                  | .error _ => [DeliveryEvent.sheetFailed]
                else [DeliveryEvent.sheetsNotConnected]
              | none => [DeliveryEvent.sheetsNotConnected]
            let ed := spread e.extracted_data
              [("custom_fields", Val.vobj (extractedData.map (fun p => (p.1, Val.vstr p.2)))),
               ("metadata", Val.vobj metadata),
               ("_extraction_processed", Val.vbool true),
               ("_extraction_date", Val.vdate now)]
            ({ e with extracted_data := ed }, events)
          else (e, [])

/-- Environment of the legacy doctor-info extraction step: the (total)
doctor-info extractor, the CSV append outcome (`appendToCSV` touches the
filesystem and can throw; the step's try/catch absorbs it), and the
webhook result (`sendToGoogleAppsScript` never throws, it returns a
boolean that the caller ignores). -/
structure LEnv where
  doctorInfo : String → DoctorInfo
  csvAppend : Except Unit Unit
  webhookOk : Bool
  newId : String

/-- The entries the legacy extraction step spreads onto `extracted_data`
when it persists: the doctor info, the processed flag and the timestamp. -/
def legacyOverlay (info : DoctorInfo) (now : Int) : Obj :=
  [("doctor_info", Val.vobj (doctorObj info)),
   ("_extraction_processed", Val.vbool true),
   ("_extraction_date", Val.vdate now)]

/-- `processTranscriptForExtraction` (legacy doctor-info version, in
bolnaService.js). When the CSV append throws, the surrounding catch stops
the step before any mutation, so the execution is returned unchanged. -/
def processLegacy (env : LEnv) (now : Int) (e : Execution) : Execution :=
  if (getProp e.extracted_data "_extraction_processed").truthy then e
  else
    let info := env.doctorInfo e.transcript
    if hasValidData info then
      match env.csvAppend with
      | .error _ => e
      | .ok _ =>
        { e with extracted_data := spread e.extracted_data (legacyOverlay info now) }
    else e

/-! ### bolnaService — upsertExecution (the Record Reconciler) -/

/-- `executionData.extracted_data || {}` (remote compartments are JSON
objects or absent, so a missing/null compartment becomes the empty
object). -/
def remoteEdOf (d : Obj) : Obj :=
  match getProp d "extracted_data" with
  | .vobj o => o
  | _ => []

/-- The duration chain of `upsertExecution`: a cascade of JS `||` over the
six candidate field names, defaulting to 0. A falsy candidate (absent,
null, 0, NaN) falls through to the next one. -/
def conversationTimeOf (d : Obj) : Val :=
  jsOrV (getProp d "conversation_duration")
    (jsOrV (getProp d "conversation_time")
      (jsOrV (getProp d "duration")
        (jsOrV (getProp d "call_duration")
          (jsOrV (getProp d "call_duration_seconds")
            (jsOrV (getProp d "billable_duration") (Val.vnum 0))))))

/-- `executionData.total_cost ? executionData.total_cost / 100 : 0`. -/
def totalCostOf (d : Obj) : Val :=
  if (getProp d "total_cost").truthy then
    match getProp d "total_cost" with
    | .vnum q => Val.vnum (q / 100)
    | _ => Val.vnan
  else Val.vnum 0

/-- The extracted_data merge of `upsertExecution`: start from the remote
compartment; when a stored record exists and its compartment carries a
truthy `_extraction_processed`, overlay the whole stored compartment on
top (stored entries win on every key collision). -/
def mergedExtractedData (d : Obj) (existing : Option Execution) : Obj :=
  let base := remoteEdOf d
  match existing with
  | some prev =>
    if (getProp prev.extracted_data "_extraction_processed").truthy then
      spread base prev.extracted_data
    else base
  | none => base

/-- The document written by `upsertExecution`'s findOneAndUpdate: every
field is computed from the remote record except the merged compartment
and the store identity. -/
def mkExecutionDoc (idStr : String) (agentId : String) (executionId : Val)
    (d : Obj) (finalEd : Obj) : Execution :=
  let td := getProp d "telephony_data"
  { _id := idStr
    bolna_execution_id := executionId
    agent_id := agentId
    conversation_time := conversationTimeOf d
    total_cost := totalCostOf d
    status := jsOrV (getProp d "status") (Val.vstr "pending")
    telephony_provider := jsOrV (optChain td "provider") (getProp d "provider")
    from_number := jsOrV (optChain td "from_number") (getProp d "from_number")
    to_number := jsOrV (optChain td "to_number") (getProp d "to_number")
    call_sid := jsOrV (optChain td "call_sid") (getProp d "call_sid")
    extracted_data := finalEd
    transcript := jsStrOrEmpty (getProp d "transcript")
    metadata := spread d
      [("cost_breakdown", getProp d "cost_breakdown"),
       ("telephony_data", td),
       ("recording_url", optChain td "recording_url")]
    started_at := if (getProp d "created_at").truthy then some (getProp d "created_at") else none
    ended_at := if (getProp d "updated_at").truthy then some (getProp d "updated_at") else none }

/-- `upsertExecution` in bolnaService.js, acting on the single store slot
keyed by the remote execution id: skip when the remote record has no
truthy id; otherwise write the reconciled document (a fresh `_id` from the
environment on insert, the stored `_id` on update) and, when the stored
transcript is non-blank, run the legacy extraction step on it. Returns the
slot's state after the call. -/
def upsertState (env : LEnv) (now : Int) (agentId : String) (d : Obj)
    (s : Option Execution) : Option Execution :=
  let executionId := jsOrV (getProp d "id") (getProp d "execution_id")
  if !executionId.truthy then s
  else
    let idStr := match s with
      | some prev => prev._id
      | none => env.newId
    let doc := mkExecutionDoc idStr agentId executionId d (mergedExtractedData d s)
    if jsTrim doc.transcript != "" then some (processLegacy env now doc)
    else some doc

/-! ### bolnaService — syncExecutionsForAgent (the Sync Orchestrator) -/

/-- One page of the remote executions list endpoint. -/
structure PageResp where
  data : List Val
  has_more : Bool

/-- Observable actions of the per-agent sync loop, in order. -/
inductive SyncEvent where
  | fetch (page : Nat)
  | reconcile (record : Val)

/-- The pagination loop of `syncExecutionsForAgent`: fetch the current
page, reconcile its records one at a time in the order received, and only
then — when the response says more pages exist — advance to the next page
number and repeat. `fuel` bounds the number of iterations (the JS loop
runs until `has_more` is false). -/
def syncLoop (pages : Nat → PageResp) : Nat → Nat → List SyncEvent
  | 0, _ => []
  | fuel + 1, pageNumber =>
    let r := pages pageNumber
    let evs := SyncEvent.fetch pageNumber :: r.data.map SyncEvent.reconcile
    if r.has_more then evs ++ syncLoop pages fuel (pageNumber + 1) else evs

/-- `syncExecutionsForAgent` starts at page 1. -/
def syncExecutionsForAgent (pages : Nat → PageResp) (fuel : Nat) : List SyncEvent :=
  syncLoop pages fuel 1

/-! ### encryptionService — token encryption (AES-256-GCM at the interface) -/

/-- JS `String.prototype.split` with a one-character separator, on the
character list of the string: empty segments are preserved. -/
def splitCh (c : Char) : List Char → List (List Char)
  | [] => [[]]
  | x :: xs =>
    if x = c then [] :: splitCh c xs
    else
      match splitCh c xs with
      | h :: t => (x :: h) :: t
      | [] => [[x]]

/-- One lowercase hex digit, as `Buffer.toString('hex')` emits them:
0-9 map to codepoints 48-57, 10-15 to 97-102 (a-f). -/
def hexDigit (n : Nat) : Char :=
  if n % 16 < 10 then Char.ofNat (48 + n % 16) else Char.ofNat (87 + n % 16)

/-- `Buffer.toString('hex')`: two lowercase hex digits per byte. -/
def hexEnc (bytes : List Nat) : List Char :=
  bytes.flatMap (fun b => [hexDigit (b / 16), hexDigit (b % 16)])

/-- The numeric value of a lowercase hex digit, if it is one. -/
def hexVal (c : Char) : Option Nat :=
  if 48 ≤ c.toNat ∧ c.toNat ≤ 57 then some (c.toNat - 48)
  else if 97 ≤ c.toNat ∧ c.toNat ≤ 102 then some (c.toNat - 87)
  else none

/-- `Buffer.from(s, 'hex')`: parse pairs of hex digits back into bytes;
`none` on odd length or a non-hex character (the real Buffer is lenient
there, but every such ciphertext fails GCM authentication anyway, so both
end in the `null` answer). -/
def hexDec : List Char → Option (List Nat)
  | [] => some []
  | c1 :: c2 :: rest =>
    match hexVal c1, hexVal c2, hexDec rest with
    | some a, some b, some l => some ((16 * a + b) :: l)
    | _, _, _ => none
  | [_] => none

/-- The AES-256-GCM primitive behind createCipheriv/createDecipheriv, at
its byte-level interface: encryption of a plaintext (as characters) under
a key and IV yields ciphertext bytes and an authentication tag; decryption
returns the plaintext or fails (authentication failure). -/
structure GcmCipher where
  enc : List Nat → List Nat → List Char → List Nat × List Nat
  dec : List Nat → List Nat → List Nat → List Nat → Option (List Char)

/-- `encrypt`: null on falsy input; otherwise the string
`ivHex : tagHex : ciphertextHex` (colon-separated). -/
def encryptM (c : GcmCipher) (key iv : List Nat) (text : String) : Option String :=
  if text = "" then none
  else
    let r := c.enc key iv text.data
    some (String.mk (hexEnc iv ++ ':' :: hexEnc r.2 ++ ':' :: hexEnc r.1))

/-- `decrypt`: null on falsy input; split on colons, require exactly three
parts, hex-decode them and run GCM decryption; any failure along the way
is caught and answered with null. -/
def decryptM (c : GcmCipher) (key : List Nat) (encryptedText : Option String) : Option String :=
  match encryptedText with
  | none => none
  | some s =>
    if s = "" then none
    else
      match splitCh ':' s.data with
      | [ivH, tagH, ctH] =>
        match hexDec ivH, hexDec tagH, hexDec ctH with
        | some iv, some tag, some ct =>
          match c.dec key iv tag ct with
          | some plain => some (String.mk plain)
          | none => none
        | _, _, _ => none
      | _ => none

theorem hexDigit_ne_colon (n : Nat) : hexDigit n ≠ ':' := by
  have h : n % 16 < 16 := Nat.mod_lt _ (by norm_num)
  unfold hexDigit
  interval_cases hm : n % 16 <;> decide

theorem colon_notin_hexEnc (bytes : List Nat) : ':' ∉ hexEnc bytes := by
  intro h
  unfold hexEnc at h
  rw [List.mem_flatMap] at h
  obtain ⟨b, _, hmem⟩ := h
  simp at hmem
  rcases hmem with hm | hm
  · exact hexDigit_ne_colon _ hm.symm
  · exact hexDigit_ne_colon _ hm.symm

theorem hexVal_hexDigit (n : Nat) : hexVal (hexDigit n) = some (n % 16) := by
  have h : n % 16 < 16 := Nat.mod_lt _ (by norm_num)
  unfold hexVal hexDigit
  interval_cases hm : n % 16 <;> decide

theorem hexDec_hexEnc (bytes : List Nat) (h : ∀ b ∈ bytes, b < 256) :
    hexDec (hexEnc bytes) = some bytes := by
  induction bytes with
  | nil => rfl
  | cons b t ih =>
    have hb : b < 256 := h b (List.mem_cons_self _ _)
    have ht : hexDec (hexEnc t) = some t := ih (fun x hx => h x (List.mem_cons_of_mem _ hx))
    show hexDec (hexDigit (b / 16) :: hexDigit (b % 16) :: hexEnc t) = some (b :: t)
    unfold hexDec
    rw [hexVal_hexDigit, hexVal_hexDigit, ht]
    have hdiv : b / 16 % 16 = b / 16 := Nat.mod_eq_of_lt (by omega)
    have hmod : b % 16 % 16 = b % 16 := Nat.mod_eq_of_lt (Nat.mod_lt _ (by norm_num))
    simp [hdiv, hmod]
    omega

theorem splitCh_not_mem {sep : Char} {xs : List Char} (h : sep ∉ xs) :
    splitCh sep xs = [xs] := by
  induction xs with
  | nil => rfl
  | cons x t ih =>
    have hx : ¬ x = sep := fun hh => h (hh ▸ List.mem_cons_self _ _)
    have ht : sep ∉ t := fun hh => h (List.mem_cons_of_mem _ hh)
    simp [splitCh, hx, ih ht]

theorem splitCh_append {sep : Char} {xs : List Char} (ys : List Char) (h : sep ∉ xs) :
    splitCh sep (xs ++ sep :: ys) = xs :: splitCh sep ys := by
  induction xs with
  | nil => simp [splitCh]
  | cons x t ih =>
    have hx : ¬ x = sep := fun hh => h (hh ▸ List.mem_cons_self _ _)
    have ht : sep ∉ t := fun hh => h (List.mem_cons_of_mem _ hh)
    simp [splitCh, hx, ih ht]

theorem splitCh_three {sep : Char} {a b c : List Char}
    (ha : sep ∉ a) (hb : sep ∉ b) (hc : sep ∉ c) :
    splitCh sep (a ++ sep :: b ++ sep :: c) = [a, b, c] := by
  rw [show a ++ sep :: b ++ sep :: c = a ++ sep :: (b ++ sep :: c) from by simp,
    splitCh_append _ ha, splitCh_append _ hb, splitCh_not_mem hc]

/-! ### Facts about the custom-fields extractor -/

theorem getEmpty_eq_map (fields : List FieldDesc)
    (hn : (fields.map FieldDesc.field_name).Nodup) :
    getEmptyCustomFieldsData fields
      = fields.map (fun f => (f.field_name, "Not Found")) := by
  unfold getEmptyCustomFieldsData
  have := foldl_objSet_eq_map fields (fun _ => "Not Found") [] hn (by simp [keys])
  simpa using this

theorem collect_eq_map (parsed : Obj) (fields : List FieldDesc)
    (hn : (fields.map FieldDesc.field_name).Nodup) :
    collectCustomFields parsed fields
      = fields.map (fun f => (f.field_name, sanitizeCustomValue (getProp parsed f.field_name))) := by
  unfold collectCustomFields
  have := foldl_objSet_eq_map fields
    (fun f => sanitizeCustomValue (getProp parsed f.field_name)) [] hn (by simp [keys])
  simpa using this

theorem sanitize_shape (v : Val) :
    sanitizeCustomValue v = "Not Found"
      ∨ (sanitizeCustomValue v ≠ "" ∧ ∃ t : String, sanitizeCustomValue v = jsTrim t) := by
  unfold sanitizeCustomValue
  cases v with
  | vstr s =>
    by_cases h : jsTrim s = ""
    · left; simp [h]
    · right
      refine ⟨by simp [h], s, by simp [h]⟩
  | vundef => left; rfl
  | vnull => left; rfl
  | vbool b => left; rfl
  | vnum q => left; rfl
  | vnan => left; rfl
  | vobj o => left; rfl
  | vdate t => left; rfl

/-! ### Claim theorems -/

/-- C1: once the `_extraction_processed` flag of a persisted execution's
`extracted_data` compartment is true, `processTranscriptForExtraction` —
in the custom-fields version and in the legacy doctor-info version — is a
no-op: the execution (every field, `extracted_data` included) is returned
unchanged, no delivery is attempted, whatever the transcript, the clock or
the collaborators do. -/
theorem extraction_once_guard (envC : CEnv) (envL : LEnv) (nowC nowL : Int) (e : Execution)
    (h : (getProp e.extracted_data "_extraction_processed").truthy = true) :
    processCustom envC nowC e = (e, []) ∧ processLegacy envL nowL e = e := by
  constructor
  · simp [processCustom, h]
  · simp [processLegacy, h]

/-- Concrete CEnv used by witnesses: no agent, no fields, no client, no AI
backend, successful sheet append, no save-empty override. -/
def envCW : CEnv :=
  { findAgent := fun _ => none
    activeFields := fun _ => []
    findClient := fun _ => none
    aiConfigured := false
    aiRespond := fun _ _ => Except.error ()
    appendRow := fun _ => Except.ok ()
    saveEmpty := false
    isoDatePart := fun _ => ""
    isoTimePart := fun _ => "" }

/-- Concrete LEnv used by witnesses: regex extractor finding nothing,
successful CSV append, successful webhook. -/
def envLW : LEnv :=
  { doctorInfo := fun _ => ⟨"", "", "", "", ""⟩
    csvAppend := Except.ok ()
    webhookOk := true
    newId := "oid1" }

/-- A processed execution used by the C1 witness. -/
def eProcessed : Execution :=
  { _id := "oid0"
    bolna_execution_id := Val.vstr "E1"
    agent_id := "a1"
    conversation_time := Val.vnum 7
    total_cost := Val.vnum 1
    status := Val.vstr "completed"
    telephony_provider := Val.vundef
    from_number := Val.vundef
    to_number := Val.vundef
    call_sid := Val.vundef
    extracted_data := [("x", Val.vnum 5), ("_extraction_processed", Val.vbool true)]
    transcript := "hello doctor"
    metadata := []
    started_at := none
    ended_at := none }

theorem extraction_once_guard_witness :
    processCustom envCW 3 eProcessed = (eProcessed, [])
      ∧ processLegacy envLW 4 eProcessed = eProcessed :=
  extraction_once_guard envCW envLW 3 4 eProcessed (by decide)

/-- The remote record of the spec's merge-precedence example: its
compartment carries only `b = 2`. -/
def dMergeEx : Obj :=
  [("id", Val.vstr "E1"), ("extracted_data", Val.vobj [("b", Val.vnum 2)])]

/-- The previously stored execution of the merge-precedence example: a
processed compartment `a = 1, _extraction_processed = true` (the spec
writes the flag as `processed`). -/
def prevMergeEx : Execution :=
  { _id := "oid0"
    bolna_execution_id := Val.vstr "E1"
    agent_id := "a1"
    conversation_time := Val.vnum 0
    total_cost := Val.vnum 0
    status := Val.vstr "completed"
    telephony_provider := Val.vundef
    from_number := Val.vundef
    to_number := Val.vundef
    call_sid := Val.vundef
    extracted_data := [("a", Val.vnum 1), ("_extraction_processed", Val.vbool true)]
    transcript := ""
    metadata := []
    started_at := none
    ended_at := none }

/-- C2: when the stored record is already extraction-processed, the
reconciled compartment is the remote compartment (empty when the remote
has none) with every stored key overlaid on top — on any key the stored
value wins, falling back to the remote value. In particular the example
compartment merge gives exactly the remote key followed by the stored
keys, stored values winning. -/
theorem merge_precedence (d : Obj) (prev : Execution)
    (hflag : (getProp prev.extracted_data "_extraction_processed").truthy = true)
    (hwf : (keys prev.extracted_data).Nodup) :
    (∀ k, olookup (mergedExtractedData d (some prev)) k
        = (olookup prev.extracted_data k).orElse (fun _ => olookup (remoteEdOf d) k))
    ∧ mergedExtractedData dMergeEx (some prevMergeEx)
        = [("b", Val.vnum 2), ("a", Val.vnum 1), ("_extraction_processed", Val.vbool true)] := by
  constructor
  · intro k
    unfold mergedExtractedData
    simp only [hflag, if_true]
    exact olookup_spread _ _ _ hwf
  · rfl

theorem merge_precedence_witness :
    mergedExtractedData dMergeEx (some prevMergeEx)
      = [("b", Val.vnum 2), ("a", Val.vnum 1), ("_extraction_processed", Val.vbool true)] :=
  (merge_precedence dMergeEx prevMergeEx (by decide) (by decide)).2

/-- C5: whatever the transcript (empty, non-string or text), whether or
not an AI backend is configured, and whatever JSON object the backend
returns, the custom-fields extractor yields one entry per descriptor, in
descriptor order — so exactly N keys for N descriptors — and each value is
the sentinel or a non-empty trimmed string. (The descriptors come from
ExtractionField documents, whose (owner, field_name) pairs are unique, so
field names are pairwise distinct.) -/
theorem sentinel_completeness (transcript : Val) (fields : List FieldDesc)
    (ai : Option (Except Unit Obj))
    (hn : (fields.map FieldDesc.field_name).Nodup) :
    keys (extractWithCustomFields transcript fields ai) = fields.map FieldDesc.field_name
    ∧ (extractWithCustomFields transcript fields ai).length = fields.length
    ∧ ∀ p ∈ extractWithCustomFields transcript fields ai,
        p.2 = "Not Found" ∨ (p.2 ≠ "" ∧ ∃ t : String, p.2 = jsTrim t) := by
  have hempty :
      keys (getEmptyCustomFieldsData fields) = fields.map FieldDesc.field_name
      ∧ (getEmptyCustomFieldsData fields).length = fields.length
      ∧ ∀ p ∈ getEmptyCustomFieldsData fields,
          p.2 = "Not Found" ∨ (p.2 ≠ "" ∧ ∃ t : String, p.2 = jsTrim t) := by
    rw [getEmpty_eq_map fields hn]
    refine ⟨by simp [keys], by simp, ?_⟩
    intro p hp
    rw [List.mem_map] at hp
    obtain ⟨f, _, hfp⟩ := hp
    left
    rw [← hfp]
  unfold extractWithCustomFields
  split
  · exact hempty
  · split
    · rename_i hfe
      rw [List.isEmpty_iff] at hfe
      subst hfe
      simp [keys]
    · match ai with
      | none => exact hempty
      | some (.error u) => exact hempty
      | some (.ok parsed) =>
        have hcol :
            keys (collectCustomFields parsed fields) = fields.map FieldDesc.field_name
            ∧ (collectCustomFields parsed fields).length = fields.length
            ∧ ∀ p ∈ collectCustomFields parsed fields,
                p.2 = "Not Found" ∨ (p.2 ≠ "" ∧ ∃ t : String, p.2 = jsTrim t) := by
          rw [collect_eq_map parsed fields hn]
          refine ⟨by simp [keys], by simp, ?_⟩
          intro p hp
          rw [List.mem_map] at hp
          obtain ⟨f, _, hfp⟩ := hp
          rw [← hfp]
          exact sanitize_shape _
        exact hcol

theorem sentinel_completeness_witness :
    keys (extractWithCustomFields (Val.vstr "call text")
        [⟨"name", "the name"⟩, ⟨"city", "the city"⟩]
        (some (Except.ok [("name", Val.vstr " Ada "), ("city", Val.vnum 3)])))
      = ["name", "city"]
    ∧ (extractWithCustomFields (Val.vstr "call text")
        [⟨"name", "the name"⟩, ⟨"city", "the city"⟩]
        (some (Except.ok [("name", Val.vstr " Ada "), ("city", Val.vnum 3)]))).length = 2
    ∧ ∀ p ∈ extractWithCustomFields (Val.vstr "call text")
        [⟨"name", "the name"⟩, ⟨"city", "the city"⟩]
        (some (Except.ok [("name", Val.vstr " Ada "), ("city", Val.vnum 3)])),
        p.2 = "Not Found" ∨ (p.2 ≠ "" ∧ ∃ t : String, p.2 = jsTrim t) :=
  sentinel_completeness (Val.vstr "call text")
    [⟨"name", "the name"⟩, ⟨"city", "the city"⟩]
    (some (Except.ok [("name", Val.vstr " Ada "), ("city", Val.vnum 3)]))
    (by decide)

/-- C9: on the empty transcript with three field descriptors f1, f2, f3,
the custom-fields extractor answers the sentinel for all three fields and
never reaches the AI backend — the result is the same for every backend
state. -/
theorem empty_transcript_three_fields (ai : Option (Except Unit Obj)) (d1 d2 d3 : String) :
    extractWithCustomFields (Val.vstr "") [⟨"f1", d1⟩, ⟨"f2", d2⟩, ⟨"f3", d3⟩] ai
      = [("f1", "Not Found"), ("f2", "Not Found"), ("f3", "Not Found")]
    ∧ customFieldsCallsAI (Val.vstr "") [⟨"f1", d1⟩, ⟨"f2", d2⟩, ⟨"f3", d3⟩] ai = false := by
  constructor <;> rfl

theorem syncLoop_succ (pages : Nat → PageResp) (fuel pageNumber : Nat) :
    syncLoop pages (fuel + 1) pageNumber =
      (if (pages pageNumber).has_more then
        (SyncEvent.fetch pageNumber :: (pages pageNumber).data.map SyncEvent.reconcile)
          ++ syncLoop pages fuel (pageNumber + 1)
      else SyncEvent.fetch pageNumber :: (pages pageNumber).data.map SyncEvent.reconcile) := rfl

/-- C7: a response sequence whose pages 1 and 2 say `has_more` and whose
page 3 does not is consumed in exactly three fetches with ascending page
numbers 1, 2, 3; the trace interleaves each fetch with the reconciliation
of exactly that page's records, in the order received, so all of page N is
reconciled before page N+1 is fetched and every record is reconciled
exactly once. `fuel ≥ 3` bounds the unbounded JS while-loop. -/
theorem pagination_termination (pages : Nat → PageResp) (fuel : Nat)
    (hfuel : 3 ≤ fuel)
    (h1 : (pages 1).has_more = true)
    (h2 : (pages 2).has_more = true)
    (h3 : (pages 3).has_more = false) :
    syncExecutionsForAgent pages fuel =
      SyncEvent.fetch 1 :: (pages 1).data.map SyncEvent.reconcile
        ++ (SyncEvent.fetch 2 :: (pages 2).data.map SyncEvent.reconcile
          ++ (SyncEvent.fetch 3 :: (pages 3).data.map SyncEvent.reconcile)) := by
  obtain ⟨n, rfl⟩ : ∃ n, fuel = n + 3 := ⟨fuel - 3, by omega⟩
  unfold syncExecutionsForAgent
  have e3 : n + 3 = (n + 2) + 1 := by omega
  have e2 : n + 2 = (n + 1) + 1 := by omega
  have e1 : n + 1 = n + 1 := rfl
  rw [e3, syncLoop_succ, h1, if_pos rfl, e2, syncLoop_succ, h2, if_pos rfl,
    syncLoop_succ, h3]
  simp

/-- The pages function of the C7 witness: three singleton pages, the
third one final. -/
def pagesW : Nat → PageResp := fun n =>
  if n = 1 then ⟨[Val.vstr "r1"], true⟩
  else if n = 2 then ⟨[Val.vstr "r2"], true⟩
  else ⟨[Val.vstr "r3"], false⟩

theorem pagination_termination_witness :
    syncExecutionsForAgent pagesW 5 =
      SyncEvent.fetch 1 :: (pagesW 1).data.map SyncEvent.reconcile
        ++ (SyncEvent.fetch 2 :: (pagesW 2).data.map SyncEvent.reconcile
          ++ (SyncEvent.fetch 3 :: (pagesW 3).data.map SyncEvent.reconcile)) :=
  pagination_termination pagesW 5 (by omega) rfl rfl rfl

/-- The remote record refuting C8 as stated: `conversation_duration` is
present and equal to 0, `call_duration` is 42. -/
def dDuration : Obj :=
  [("id", Val.vstr "E1"),
   ("conversation_duration", Val.vnum 0),
   ("call_duration", Val.vnum 42)]

/-- C8 counterexample: the claim says the first present non-null candidate
wins, so a present `conversation_duration = 0` should be persisted as the
duration; the reconciler instead persists 42, because the JS `||` chain
skips every falsy value and a present 0 is falsy. -/
theorem duration_zero_skipped :
    (mkExecutionDoc "oid1" "a1" (Val.vstr "E1") dDuration
        (mergedExtractedData dDuration none)).conversation_time = Val.vnum 42
    ∧ (mkExecutionDoc "oid1" "a1" (Val.vstr "E1") dDuration
        (mergedExtractedData dDuration none)).conversation_time ≠ Val.vnum 0 := by
  constructor
  · rfl
  · intro h
    have h42 : Val.vnum 42 = Val.vnum 0 := by
      rw [show Val.vnum 42 = (mkExecutionDoc "oid1" "a1" (Val.vstr "E1") dDuration
        (mergedExtractedData dDuration none)).conversation_time from rfl]
      exact h
    injection h42 with hq
    norm_num at hq

/-- C8 as amended: the persisted duration is the value of the first
candidate, in the order conversation_duration, conversation_time,
duration, call_duration, call_duration_seconds, billable_duration, whose
value is truthy (present and neither null, 0, NaN, false nor the empty
string), and 0 when no candidate is truthy — in particular a present but
falsy value (such as 0) is skipped in favour of a later truthy one. -/
theorem duration_first_truthy_wins (idStr agentId : String) (executionId : Val)
    (d : Obj) (finalEd : Obj) :
    (mkExecutionDoc idStr agentId executionId d finalEd).conversation_time =
      match
        [getProp d "conversation_duration", getProp d "conversation_time",
         getProp d "duration", getProp d "call_duration",
         getProp d "call_duration_seconds", getProp d "billable_duration"].find?
          Val.truthy with
      | some v => v
      | none => Val.vnum 0 := by
  show conversationTimeOf d = _
  unfold conversationTimeOf jsOrV
  by_cases h1 : (getProp d "conversation_duration").truthy <;>
    by_cases h2 : (getProp d "conversation_time").truthy <;>
      by_cases h3 : (getProp d "duration").truthy <;>
        by_cases h4 : (getProp d "call_duration").truthy <;>
          by_cases h5 : (getProp d "call_duration_seconds").truthy <;>
            by_cases h6 : (getProp d "billable_duration").truthy <;>
              simp [List.find?, h1, h2, h3, h4, h5, h6]

theorem processCustom_persist (env : CEnv) (now : Int) (e : Execution) (agent : AgentRec)
    (flds : List FieldDesc) (xd : List (String × String))
    (hguard : (getProp e.extracted_data "_extraction_processed").truthy = false)
    (hagent : env.findAgent e.agent_id = some agent)
    (hclient : agent.client_id.truthy = true)
    (hflds : env.activeFields agent.client_id = flds)
    (hne : flds ≠ [])
    (hxd : extractWithCustomFields (Val.vstr e.transcript) flds
        (if env.aiConfigured then some (env.aiRespond e.transcript flds) else none) = xd)
    (hsave : (xd.any (fun p => p.2 != "Not Found") || env.saveEmpty) = true) :
    processCustom env now e =
      ({ e with extracted_data :=
          (spread e.extracted_data
            [("custom_fields", Val.vobj (xd.map (fun p => (p.1, Val.vstr p.2)))),
             ("metadata", Val.vobj
               [("Call_Date", Val.vstr (match e.started_at with
                   | some v => env.isoDatePart v
                   | none => "")),
                ("Call_Time", Val.vstr (match e.started_at with
                   | some v => env.isoTimePart v
                   | none => "")),
                ("Execution_ID", if e.bolna_execution_id.truthy then e.bolna_execution_id
                  else Val.vstr e._id),
                ("Agent_Name", if agent.name.truthy then agent.name else Val.vstr "")]),
             ("_extraction_processed", Val.vbool true),
             ("_extraction_date", Val.vdate now)]) },
       match env.findClient agent.client_id with
       | some client =>
         if client.google_authorized.truthy && client.google_sheet_id.truthy then
           match env.appendRow
             (flds.map (fun f =>
               match olookup xd f.field_name with
               | some s => if s = "" then Val.vstr "Not Found" else Val.vstr s
               | none => Val.vstr "Not Found")
             ++ [Val.vstr (match e.started_at with
                   | some v => env.isoDatePart v
                   | none => ""),
                 Val.vstr (match e.started_at with
                   | some v => env.isoTimePart v
                   | none => ""),
                 (if e.bolna_execution_id.truthy then e.bolna_execution_id
                   else Val.vstr e._id),
                 (if agent.name.truthy then agent.name else Val.vstr "")]) with
           | .ok _ => [DeliveryEvent.sheetAppended]
           | .error _ => [DeliveryEvent.sheetFailed]
         else [DeliveryEvent.sheetsNotConnected]
       | none => [DeliveryEvent.sheetsNotConnected]) := by
  have hempty : flds.isEmpty = false := by
    cases flds with
    | nil => exact absurd rfl hne
    | cons f fl => rfl
  unfold processCustom
  rw [hguard, hagent]
  simp only [Bool.false_eq_true, if_false, hclient, Bool.not_true, hflds, hempty, hxd, hsave,
    if_true]

/-- The execution used to refute C3: not yet processed, non-blank
transcript, empty compartment. -/
def eUnprocessed : Execution :=
  { _id := "oid2"
    bolna_execution_id := Val.vstr "E2"
    agent_id := "a1"
    conversation_time := Val.vnum 3
    total_cost := Val.vnum 0
    status := Val.vstr "completed"
    telephony_provider := Val.vundef
    from_number := Val.vundef
    to_number := Val.vundef
    call_sid := Val.vundef
    extracted_data := []
    transcript := "hello doctor"
    metadata := []
    started_at := none
    ended_at := none }

/-- The environment refuting C3: agent and one active field found, AI
backend configured and answering the empty JSON object (it returns
without throwing), no save-empty override. -/
def envNoData : CEnv :=
  { findAgent := fun _ => some ⟨Val.vstr "AgentX", Val.vstr "client1"⟩
    activeFields := fun _ => [⟨"f1", "extract f1"⟩]
    findClient := fun _ => none
    aiConfigured := true
    aiRespond := fun _ _ => Except.ok []
    appendRow := fun _ => Except.ok ()
    saveEmpty := false
    isoDatePart := fun _ => ""
    isoTimePart := fun _ => "" }

/-- C3 counterexample: on `envNoData`/`eUnprocessed` the extraction step
runs (guard false, agent and client id found, one active field), the
Field Extractor returns without throwing — answering the sentinel for the
single field — yet the step persists nothing: the execution comes back
unchanged, its `_extraction_processed` flag still absent, because
persistence is additionally guarded by the has-meaningful-data test that
the claim omits. -/
theorem extraction_no_data_not_persisted :
    extractWithCustomFields (Val.vstr eUnprocessed.transcript) [⟨"f1", "extract f1"⟩]
        (some (Except.ok [])) = [("f1", "Not Found")]
    ∧ processCustom envNoData 0 eUnprocessed = (eUnprocessed, [])
    ∧ getProp eUnprocessed.extracted_data "_extraction_processed" = Val.vundef := by
  refine ⟨rfl, ?_, rfl⟩
  rfl

/-- C3 (amended): when the extraction step runs on a not-yet-processed
execution, its Field Extractor invocation returns (it is total — internal
failures are caught and answered with sentinel data), and the result has
meaningful data (some value differs from the sentinel) or the save-empty
override is set, the step persists on the execution the extracted values
(under `custom_fields`), the metadata block, `processed = true` and the
processed-timestamp — whatever the sheet-delivery outcome (the append
outcome `env.appendRow` is arbitrary here and absent from every
conclusion). -/
theorem extraction_persists_when_meaningful (env : CEnv) (now : Int) (e : Execution)
    (agent : AgentRec) (flds : List FieldDesc) (xd : List (String × String))
    (hguard : (getProp e.extracted_data "_extraction_processed").truthy = false)
    (hagent : env.findAgent e.agent_id = some agent)
    (hclient : agent.client_id.truthy = true)
    (hflds : env.activeFields agent.client_id = flds)
    (hne : flds ≠ [])
    (hxd : extractWithCustomFields (Val.vstr e.transcript) flds
        (if env.aiConfigured then some (env.aiRespond e.transcript flds) else none) = xd)
    (hsave : (xd.any (fun p => p.2 != "Not Found") || env.saveEmpty) = true) :
    olookup (processCustom env now e).1.extracted_data "_extraction_processed"
        = some (Val.vbool true)
    ∧ olookup (processCustom env now e).1.extracted_data "custom_fields"
        = some (Val.vobj (xd.map (fun p => (p.1, Val.vstr p.2))))
    ∧ olookup (processCustom env now e).1.extracted_data "metadata"
        = some (Val.vobj
            [("Call_Date", Val.vstr (match e.started_at with
                | some v => env.isoDatePart v
                | none => "")),
             ("Call_Time", Val.vstr (match e.started_at with
                | some v => env.isoTimePart v
                | none => "")),
             ("Execution_ID", if e.bolna_execution_id.truthy then e.bolna_execution_id
               else Val.vstr e._id),
             ("Agent_Name", if agent.name.truthy then agent.name else Val.vstr "")])
    ∧ olookup (processCustom env now e).1.extracted_data "_extraction_date"
        = some (Val.vdate now) := by
  rw [processCustom_persist env now e agent flds xd hguard hagent hclient hflds hne hxd hsave]
  have hov : (keys
      [("custom_fields", Val.vobj (xd.map (fun p => (p.1, Val.vstr p.2)))),
       ("metadata", Val.vobj
         [("Call_Date", Val.vstr (match e.started_at with
             | some v => env.isoDatePart v
             | none => "")),
          ("Call_Time", Val.vstr (match e.started_at with
             | some v => env.isoTimePart v
             | none => "")),
          ("Execution_ID", if e.bolna_execution_id.truthy then e.bolna_execution_id
            else Val.vstr e._id),
          ("Agent_Name", if agent.name.truthy then agent.name else Val.vstr "")]),
       ("_extraction_processed", Val.vbool true),
       ("_extraction_date", Val.vdate now)]).Nodup := by
    rw [show keys
      [("custom_fields", Val.vobj (xd.map (fun p => (p.1, Val.vstr p.2)))),
       ("metadata", Val.vobj
         [("Call_Date", Val.vstr (match e.started_at with
             | some v => env.isoDatePart v
             | none => "")),
          ("Call_Time", Val.vstr (match e.started_at with
             | some v => env.isoTimePart v
             | none => "")),
          ("Execution_ID", if e.bolna_execution_id.truthy then e.bolna_execution_id
            else Val.vstr e._id),
          ("Agent_Name", if agent.name.truthy then agent.name else Val.vstr "")]),
       ("_extraction_processed", Val.vbool true),
       ("_extraction_date", Val.vdate now)]
      = ["custom_fields", "metadata", "_extraction_processed", "_extraction_date"] from rfl]
    decide
  refine ⟨?_, ?_, ?_, ?_⟩ <;>
    rw [olookup_spread _ _ _ hov] <;> simp [olookup]

/-- The concrete agent record used by witnesses. -/
def agentW : AgentRec := ⟨Val.vstr "AgentX", Val.vstr "client1"⟩

/-- Witness environment for the amended C3: one active field, AI backend
answering a meaningful value. -/
def envWithData : CEnv :=
  { findAgent := fun _ => some agentW
    activeFields := fun _ => [⟨"f1", "extract f1"⟩]
    findClient := fun _ => none
    aiConfigured := true
    aiRespond := fun _ _ => Except.ok [("f1", Val.vstr "Bob")]
    appendRow := fun _ => Except.ok ()
    saveEmpty := false
    isoDatePart := fun _ => ""
    isoTimePart := fun _ => "" }

theorem extraction_persists_when_meaningful_witness :
    olookup (processCustom envWithData 7 eUnprocessed).1.extracted_data "_extraction_processed"
      = some (Val.vbool true) :=
  (extraction_persists_when_meaningful envWithData 7 eUnprocessed agentW
    [⟨"f1", "extract f1"⟩] [("f1", "Bob")]
    rfl rfl (by decide) rfl (by simp) (by rfl) (by decide)).1

theorem persist_overlay_lookups (ed : Obj) (cf md : Val) (now : Int) :
    olookup (spread ed
        [("custom_fields", cf), ("metadata", md),
         ("_extraction_processed", Val.vbool true), ("_extraction_date", Val.vdate now)])
        "custom_fields" = some cf
    ∧ olookup (spread ed
        [("custom_fields", cf), ("metadata", md),
         ("_extraction_processed", Val.vbool true), ("_extraction_date", Val.vdate now)])
        "_extraction_processed" = some (Val.vbool true) := by
  have hov : (keys
      [("custom_fields", cf), ("metadata", md),
       ("_extraction_processed", Val.vbool true), ("_extraction_date", Val.vdate now)]).Nodup := by
    rw [show keys
      [("custom_fields", cf), ("metadata", md),
       ("_extraction_processed", Val.vbool true), ("_extraction_date", Val.vdate now)]
      = ["custom_fields", "metadata", "_extraction_processed", "_extraction_date"] from rfl]
    decide
  constructor <;> rw [olookup_spread _ _ _ hov] <;> simp [olookup]

/-- C6: when every sheet-append attempt fails (the Google Sheets call
throws), the extraction step on an unprocessed execution with meaningful
extracted data still persists the extracted values and marks it
`processed = true`; the failure is absorbed — the recorded outcome is just
the `sheetFailed` delivery event — and the persisted state is exactly the
state an always-succeeding sink would produce, so nothing escapes to the
reconciliation or orchestration layers. -/
theorem delivery_isolation (env : CEnv) (now : Int) (e : Execution)
    (agent : AgentRec) (client : ClientRec) (flds : List FieldDesc)
    (xd : List (String × String))
    (hfail : ∀ vs, env.appendRow vs = Except.error ())
    (hguard : (getProp e.extracted_data "_extraction_processed").truthy = false)
    (hagent : env.findAgent e.agent_id = some agent)
    (hclient : agent.client_id.truthy = true)
    (hflds : env.activeFields agent.client_id = flds)
    (hne : flds ≠ [])
    (hxd : extractWithCustomFields (Val.vstr e.transcript) flds
        (if env.aiConfigured then some (env.aiRespond e.transcript flds) else none) = xd)
    (hvalid : xd.any (fun p => p.2 != "Not Found") = true)
    (hcl : env.findClient agent.client_id = some client)
    (hga : client.google_authorized.truthy = true)
    (hgs : client.google_sheet_id.truthy = true) :
    (processCustom env now e).2 = [DeliveryEvent.sheetFailed]
    ∧ olookup (processCustom env now e).1.extracted_data "_extraction_processed"
        = some (Val.vbool true)
    ∧ olookup (processCustom env now e).1.extracted_data "custom_fields"
        = some (Val.vobj (xd.map (fun p => (p.1, Val.vstr p.2))))
    ∧ (processCustom env now e).1
        = (processCustom { env with appendRow := fun _ => Except.ok () } now e).1 := by
  have hsave : (xd.any (fun p => p.2 != "Not Found") || env.saveEmpty) = true := by
    rw [hvalid]
    exact Bool.true_or _
  have h1 := processCustom_persist env now e agent flds xd hguard hagent hclient hflds hne
    hxd hsave
  have h2 := processCustom_persist { env with appendRow := fun _ => Except.ok () } now e agent
    flds xd hguard hagent hclient hflds hne hxd hsave
  refine ⟨?_, ?_, ?_, ?_⟩
  · rw [h1]
    simp only [hcl, hga, hgs, Bool.and_self, if_true, hfail]
  · rw [h1]
    exact (persist_overlay_lookups _ _ _ _).2
  · rw [h1]
    exact (persist_overlay_lookups _ _ _ _).1
  · rw [h1, h2]

/-- Witness environment for C6: agent, field and connected client found,
AI answering a meaningful value, and a sheet append that always fails. -/
def envSinkFails : CEnv :=
  { findAgent := fun _ => some agentW
    activeFields := fun _ => [⟨"f1", "extract f1"⟩]
    findClient := fun _ => some ⟨Val.vbool true, Val.vstr "sheet-1"⟩
    aiConfigured := true
    aiRespond := fun _ _ => Except.ok [("f1", Val.vstr "Bob")]
    appendRow := fun _ => Except.error ()
    saveEmpty := false
    isoDatePart := fun _ => ""
    isoTimePart := fun _ => "" }

theorem delivery_isolation_witness :
    (processCustom envSinkFails 9 eUnprocessed).2 = [DeliveryEvent.sheetFailed]
    ∧ olookup (processCustom envSinkFails 9 eUnprocessed).1.extracted_data
        "_extraction_processed" = some (Val.vbool true) :=
  have h := delivery_isolation envSinkFails 9 eUnprocessed agentW
    ⟨Val.vbool true, Val.vstr "sheet-1"⟩ [⟨"f1", "extract f1"⟩] [("f1", "Bob")]
    (fun _ => rfl) rfl rfl (by decide) rfl (by simp) (by rfl) (by decide) rfl (by decide) (by decide)
  ⟨h.1, h.2.1⟩

/-! ### Supporting facts for reconciliation idempotence -/

theorem olookup_of_getProp_truthy {o : Obj} {k : String}
    (h : (getProp o k).truthy = true) : olookup o k = some (getProp o k) := by
  cases hx : olookup o k with
  | none =>
    unfold getProp at h
    rw [hx] at h
    simp [Val.truthy] at h
  | some v =>
    unfold getProp
    rw [hx]
    rfl

theorem getProp_spread_overlay {b z : Obj} {k : String} (hn : (keys z).Nodup)
    (h : (getProp z k).truthy = true) :
    getProp (spread b z) k = getProp z k := by
  unfold getProp
  rw [olookup_spread _ _ _ hn, olookup_of_getProp_truthy h]
  rfl

theorem merged_is_spread (d : Obj) (s0 : Option Execution) :
    ∃ z, mergedExtractedData d s0 = spread (remoteEdOf d) z := by
  cases s0 with
  | none => exact ⟨[], (spread_nil _).symm⟩
  | some prev =>
    unfold mergedExtractedData
    by_cases hp : (getProp prev.extracted_data "_extraction_processed").truthy = true
    · exact ⟨prev.extracted_data, by simp only [hp, if_true]⟩
    · rw [Bool.not_eq_true] at hp
      exact ⟨[], by simp only [hp, Bool.false_eq_true, if_false, spread_nil]⟩

theorem merged_flag_truthy (d : Obj) (prev : Execution)
    (hn : (keys prev.extracted_data).Nodup)
    (hp : (getProp prev.extracted_data "_extraction_processed").truthy = true) :
    (getProp (mergedExtractedData d (some prev)) "_extraction_processed").truthy = true := by
  unfold mergedExtractedData
  simp only [hp, if_true]
  rw [getProp_spread_overlay hn hp]
  exact hp

theorem merged_base_of_flag_false (d : Obj) (s0 : Option Execution)
    (hs : ∀ prev, s0 = some prev → (keys prev.extracted_data).Nodup)
    (hf : (getProp (mergedExtractedData d s0) "_extraction_processed").truthy = false) :
    mergedExtractedData d s0 = remoteEdOf d := by
  cases s0 with
  | none => rfl
  | some prev =>
    by_cases hp : (getProp prev.extracted_data "_extraction_processed").truthy = true
    · rw [merged_flag_truthy d prev (hs prev rfl) hp] at hf
      cases hf
    · rw [Bool.not_eq_true] at hp
      unfold mergedExtractedData
      simp only [hp, Bool.false_eq_true, if_false]

theorem merged_absorb (d : Obj) (y : Execution) (z : Obj)
    (hr : (keys (remoteEdOf d)).Nodup)
    (hy : y.extracted_data = spread (remoteEdOf d) z)
    (hflag : (getProp y.extracted_data "_extraction_processed").truthy = true) :
    mergedExtractedData d (some y) = y.extracted_data := by
  unfold mergedExtractedData
  simp only [hflag, if_true]
  rw [hy, spread_absorb _ _ hr]

theorem legacyOverlay_keys (info : DoctorInfo) (now : Int) :
    keys (legacyOverlay info now)
      = ["doctor_info", "_extraction_processed", "_extraction_date"] := rfl

theorem legacyOverlay_flag (b : Obj) (info : DoctorInfo) (now : Int) :
    getProp (spread b (legacyOverlay info now)) "_extraction_processed" = Val.vbool true := by
  unfold getProp
  rw [olookup_spread _ _ _ (by rw [legacyOverlay_keys]; decide)]
  simp [legacyOverlay, olookup]

theorem processLegacy_cases (env : LEnv) (now : Int) (e : Execution) :
    processLegacy env now e = e
    ∨ processLegacy env now e
        = { e with extracted_data :=
              spread e.extracted_data (legacyOverlay (env.doctorInfo e.transcript) now) } := by
  unfold processLegacy
  by_cases hg : (getProp e.extracted_data "_extraction_processed").truthy = true
  · left
    simp [hg]
  · rw [Bool.not_eq_true] at hg
    simp only [hg, Bool.false_eq_true, if_false]
    by_cases hv : hasValidData (env.doctorInfo e.transcript) = true
    · simp only [hv, if_true]
      cases env.csvAppend with
      | error u => left; rfl
      | ok u => right; rfl
    · rw [Bool.not_eq_true] at hv
      left
      simp only [hv, Bool.false_eq_true, if_false]

theorem processLegacy_id (env : LEnv) (now : Int) (e : Execution) :
    (processLegacy env now e)._id = e._id := by
  rcases processLegacy_cases env now e with h | h <;> rw [h]

theorem processLegacy_transcript (env : LEnv) (now : Int) (e : Execution) :
    (processLegacy env now e).transcript = e.transcript := by
  rcases processLegacy_cases env now e with h | h <;> rw [h]

theorem mkDoc_transcript (idStr agentId : String) (executionId : Val) (d : Obj)
    (finalEd : Obj) :
    (mkExecutionDoc idStr agentId executionId d finalEd).transcript
      = jsStrOrEmpty (getProp d "transcript") := rfl

theorem mkDoc_ed (idStr agentId : String) (executionId : Val) (d : Obj) (finalEd : Obj) :
    (mkExecutionDoc idStr agentId executionId d finalEd).extracted_data = finalEd := rfl

theorem mkDoc_id (idStr agentId : String) (executionId : Val) (d : Obj) (finalEd : Obj) :
    (mkExecutionDoc idStr agentId executionId d finalEd)._id = idStr := rfl

theorem mkDoc_update (idStr agentId : String) (executionId : Val) (d : Obj)
    (x y : Obj) :
    mkExecutionDoc idStr agentId executionId d x
      = { mkExecutionDoc idStr agentId executionId d y with extracted_data := x } := rfl

/-- The body of `upsertState` once the remote record has a truthy id. -/
def stepDoc (env : LEnv) (now : Int) (agentId : String) (d : Obj)
    (s : Option Execution) : Execution :=
  let executionId := jsOrV (getProp d "id") (getProp d "execution_id")
  let idStr := match s with
    | some prev => prev._id
    | none => env.newId
  let doc := mkExecutionDoc idStr agentId executionId d (mergedExtractedData d s)
  if jsTrim doc.transcript != "" then processLegacy env now doc else doc

theorem upsertState_pos (env : LEnv) (now : Int) (agentId : String) (d : Obj)
    (s : Option Execution)
    (heid : (jsOrV (getProp d "id") (getProp d "execution_id")).truthy = true) :
    upsertState env now agentId d s = some (stepDoc env now agentId d s) := by
  unfold upsertState stepDoc
  simp only [heid, Bool.not_true, Bool.false_eq_true, if_false]
  split <;> rfl

theorem upsertState_neg (env : LEnv) (now : Int) (agentId : String) (d : Obj)
    (s : Option Execution)
    (heid : (jsOrV (getProp d "id") (getProp d "execution_id")).truthy = false) :
    upsertState env now agentId d s = s := by
  unfold upsertState
  simp only [heid, Bool.not_false, if_true]

theorem merged_of_prev_flag_false (d : Obj) (y : Execution)
    (hflag : (getProp y.extracted_data "_extraction_processed").truthy = false) :
    mergedExtractedData d (some y) = remoteEdOf d := by
  unfold mergedExtractedData
  simp only [hflag, Bool.false_eq_true, if_false]

theorem processLegacy_noop_any_time (env : LEnv) (now1 now2 : Int) (e : Execution)
    (h : processLegacy env now1 e = e) : processLegacy env now2 e = e := by
  unfold processLegacy at *
  by_cases hg : (getProp e.extracted_data "_extraction_processed").truthy = true
  · simp [hg]
  · rw [Bool.not_eq_true] at hg
    simp only [hg, Bool.false_eq_true, if_false] at h ⊢
    by_cases hv : hasValidData (env.doctorInfo e.transcript) = true
    · simp only [hv, if_true] at h ⊢
      cases hcsv : env.csvAppend with
      | error u => rfl
      | ok u =>
        rw [hcsv] at h
        exfalso
        have hed : spread e.extracted_data (legacyOverlay (env.doctorInfo e.transcript) now1)
            = e.extracted_data := congrArg Execution.extracted_data h
        have hfl := legacyOverlay_flag e.extracted_data (env.doctorInfo e.transcript) now1
        rw [hed] at hfl
        rw [hfl] at hg
        simp [Val.truthy] at hg
    · simp only [hv, Bool.false_eq_true, if_false] at h ⊢

theorem processLegacy_guarded (env : LEnv) (now : Int) (e : Execution)
    (h : (getProp e.extracted_data "_extraction_processed").truthy = true) :
    processLegacy env now e = e := by
  unfold processLegacy
  simp [h]

theorem stepDoc_eq (env : LEnv) (now : Int) (agentId : String) (d : Obj)
    (s0 : Option Execution) :
    stepDoc env now agentId d s0
      = (if jsTrim (jsStrOrEmpty (getProp d "transcript")) != "" then
          processLegacy env now (mkExecutionDoc
            (match s0 with
             | some prev => prev._id
             | none => env.newId)
            agentId (jsOrV (getProp d "id") (getProp d "execution_id")) d
            (mergedExtractedData d s0))
        else mkExecutionDoc
            (match s0 with
             | some prev => prev._id
             | none => env.newId)
            agentId (jsOrV (getProp d "id") (getProp d "execution_id")) d
            (mergedExtractedData d s0)) := by
  unfold stepDoc
  simp only []
  rw [mkDoc_transcript]

theorem stepDoc_some (env : LEnv) (now : Int) (agentId : String) (d : Obj)
    (e1 : Execution) :
    stepDoc env now agentId d (some e1)
      = (if jsTrim (jsStrOrEmpty (getProp d "transcript")) != "" then
          processLegacy env now (mkExecutionDoc e1._id agentId
            (jsOrV (getProp d "id") (getProp d "execution_id")) d
            (mergedExtractedData d (some e1)))
        else mkExecutionDoc e1._id agentId
            (jsOrV (getProp d "id") (getProp d "execution_id")) d
            (mergedExtractedData d (some e1))) := by
  rw [stepDoc_eq]

theorem stepDoc_some_fixed (env : LEnv) (now2 : Int) (agentId : String) (d : Obj)
    (e1 : Execution)
    (hid : mkExecutionDoc e1._id agentId (jsOrV (getProp d "id") (getProp d "execution_id")) d
        e1.extracted_data = e1)
    (hmerge : mergedExtractedData d (some e1) = e1.extracted_data)
    (hfix : (jsTrim (jsStrOrEmpty (getProp d "transcript")) != "") = true →
        processLegacy env now2 e1 = e1) :
    stepDoc env now2 agentId d (some e1) = e1 := by
  rw [stepDoc_some, hmerge, hid]
  by_cases htr : (jsTrim (jsStrOrEmpty (getProp d "transcript")) != "") = true
  · rw [if_pos htr]
    exact hfix htr
  · rw [if_neg htr]

theorem stepDoc_fix_aux (env : LEnv) (now1 now2 : Int) (agentId : String) (d : Obj)
    (id1 : String) (m z0 : Obj)
    (hr : (keys (remoteEdOf d)).Nodup)
    (hmz : m = spread (remoteEdOf d) z0)
    (hmflag : (getProp m "_extraction_processed").truthy = false → m = remoteEdOf d) :
    stepDoc env now2 agentId d
        (some (if jsTrim (jsStrOrEmpty (getProp d "transcript")) != "" then
            processLegacy env now1 (mkExecutionDoc id1 agentId
              (jsOrV (getProp d "id") (getProp d "execution_id")) d m)
          else mkExecutionDoc id1 agentId
              (jsOrV (getProp d "id") (getProp d "execution_id")) d m))
      = (if jsTrim (jsStrOrEmpty (getProp d "transcript")) != "" then
            processLegacy env now1 (mkExecutionDoc id1 agentId
              (jsOrV (getProp d "id") (getProp d "execution_id")) d m)
          else mkExecutionDoc id1 agentId
              (jsOrV (getProp d "id") (getProp d "execution_id")) d m) := by
  have hm2doc : mergedExtractedData d
      (some (mkExecutionDoc id1 agentId
        (jsOrV (getProp d "id") (getProp d "execution_id")) d m)) = m := by
    by_cases hg : (getProp m "_extraction_processed").truthy = true
    · exact merged_absorb d _ z0 hr (by rw [mkDoc_ed]; exact hmz) (by rw [mkDoc_ed]; exact hg)
    · rw [Bool.not_eq_true] at hg
      rw [merged_of_prev_flag_false d _ (by rw [mkDoc_ed]; exact hg), ← hmflag hg]
  by_cases htr : (jsTrim (jsStrOrEmpty (getProp d "transcript")) != "") = true
  · simp only [htr, if_true]
    rcases processLegacy_cases env now1
      (mkExecutionDoc id1 agentId (jsOrV (getProp d "id") (getProp d "execution_id")) d m)
      with hcase | hcase
    · rw [hcase]
      apply stepDoc_some_fixed
      · rfl
      · exact hm2doc
      · intro _
        exact processLegacy_noop_any_time env now1 now2 _ hcase
    · rw [hcase]
      apply stepDoc_some_fixed
      · rfl
      · apply merged_absorb d _
          (z0 ++ legacyOverlay (env.doctorInfo (mkExecutionDoc id1 agentId
            (jsOrV (getProp d "id") (getProp d "execution_id")) d m).transcript) now1) hr
        · show spread (mkExecutionDoc id1 agentId
              (jsOrV (getProp d "id") (getProp d "execution_id")) d m).extracted_data
              (legacyOverlay (env.doctorInfo (mkExecutionDoc id1 agentId
                (jsOrV (getProp d "id") (getProp d "execution_id")) d m).transcript) now1)
            = spread (remoteEdOf d)
              (z0 ++ legacyOverlay (env.doctorInfo (mkExecutionDoc id1 agentId
                (jsOrV (getProp d "id") (getProp d "execution_id")) d m).transcript) now1)
          rw [mkDoc_ed, hmz, spread_append]
        · show (getProp (spread (mkExecutionDoc id1 agentId
              (jsOrV (getProp d "id") (getProp d "execution_id")) d m).extracted_data
              (legacyOverlay (env.doctorInfo (mkExecutionDoc id1 agentId
                (jsOrV (getProp d "id") (getProp d "execution_id")) d m).transcript) now1))
              "_extraction_processed").truthy = true
          rw [legacyOverlay_flag]
          rfl
      · intro _
        apply processLegacy_guarded
        show (getProp (spread (mkExecutionDoc id1 agentId
            (jsOrV (getProp d "id") (getProp d "execution_id")) d m).extracted_data
            (legacyOverlay (env.doctorInfo (mkExecutionDoc id1 agentId
              (jsOrV (getProp d "id") (getProp d "execution_id")) d m).transcript) now1))
            "_extraction_processed").truthy = true
        rw [legacyOverlay_flag]
        rfl
  · simp only [htr, Bool.false_eq_true, if_false]
    apply stepDoc_some_fixed
    · rfl
    · exact hm2doc
    · intro h
      exact absurd h htr

/-- C4: reconciliation is idempotent. Running `upsertExecution` twice in
sequence on the same remote record, with no intervening change to the
stored slot (same collaborators; the clock may differ between the runs),
leaves exactly the persisted state of the first run — including the
extraction step the upsert triggers. The two Nodup hypotheses say only
that the remote compartment and the stored compartment are JS objects
(distinct keys). -/
theorem reconcile_idempotent (env : LEnv) (now1 now2 : Int) (agentId : String) (d : Obj)
    (s0 : Option Execution)
    (hr : (keys (remoteEdOf d)).Nodup)
    (hs : ∀ prev, s0 = some prev → (keys prev.extracted_data).Nodup) :
    upsertState env now2 agentId d (upsertState env now1 agentId d s0)
      = upsertState env now1 agentId d s0 := by
  by_cases heid : (jsOrV (getProp d "id") (getProp d "execution_id")).truthy = true
  · rw [upsertState_pos env now1 agentId d s0 heid,
      upsertState_pos env now2 agentId d _ heid]
    congr 1
    rw [stepDoc_eq env now1 agentId d s0]
    obtain ⟨z0, hz0⟩ := merged_is_spread d s0
    exact stepDoc_fix_aux env now1 now2 agentId d _ _ z0 hr hz0
      (fun hg => merged_base_of_flag_false d s0 hs hg)
  · rw [Bool.not_eq_true] at heid
    rw [upsertState_neg env now1 agentId d s0 heid,
      upsertState_neg env now2 agentId d s0 heid]

/-- A remote record with transcript, used by the C4 witness; the legacy
witness environment extracts nothing from it, so the first run persists
the bare document. -/
def dSync : Obj :=
  [("id", Val.vstr "E9"),
   ("total_cost", Val.vnum 250),
   ("conversation_duration", Val.vnum 42),
   ("status", Val.vstr "completed"),
   ("transcript", Val.vstr "hello there"),
   ("extracted_data", Val.vobj [("remote_note", Val.vstr "n")])]

theorem reconcile_idempotent_witness :
    upsertState envLW 11 "a1" dSync (upsertState envLW 10 "a1" dSync none)
      = upsertState envLW 10 "a1" dSync none :=
  reconcile_idempotent envLW 10 11 "a1" dSync none (by decide)
    (fun prev hp => by cases hp)

/-- C10: under the service's fixed key, `decrypt (encrypt s)` recovers
every non-empty string `s`, whatever fresh IV the encryption drew —
provided the underlying AES-256-GCM primitive inverts itself on this
input, which is the library guarantee the service builds on. Moreover
`decrypt` is total at the interface: `null` input answers `null`, and a
ciphertext that does not split into exactly three colon-separated parts
answers `null` rather than throwing. -/
theorem encrypt_decrypt_roundtrip (c : GcmCipher) (key iv : List Nat) (s : String)
    (hs : ¬ s = "")
    (hiv : ∀ b ∈ iv, b < 256)
    (htag : ∀ b ∈ (c.enc key iv s.data).2, b < 256)
    (hct : ∀ b ∈ (c.enc key iv s.data).1, b < 256)
    (hdec : c.dec key iv (c.enc key iv s.data).2 (c.enc key iv s.data).1 = some s.data) :
    decryptM c key (encryptM c key iv s) = some s
    ∧ decryptM c key none = none
    ∧ (∀ t : String, (splitCh ':' t.data).length ≠ 3 → decryptM c key (some t) = none) := by
  refine ⟨?_, rfl, ?_⟩
  · unfold encryptM
    rw [if_neg hs]
    unfold decryptM
    simp only []
    rw [if_neg (by
      intro h
      have hd := congrArg String.data h
      simp at hd)]
    rw [splitCh_three (colon_notin_hexEnc iv)
      (colon_notin_hexEnc (c.enc key iv s.data).2) (colon_notin_hexEnc (c.enc key iv s.data).1)]
    simp only []
    rw [hexDec_hexEnc iv hiv, hexDec_hexEnc _ htag, hexDec_hexEnc _ hct]
    simp only []
    rw [hdec]
  · intro t ht
    unfold decryptM
    simp only []
    by_cases hte : t = ""
    · rw [if_pos hte]
    · rw [if_neg hte]
      cases h1 : splitCh ':' t.data with
      | nil => rfl
      | cons a r1 =>
        cases r1 with
        | nil => rfl
        | cons b r2 =>
          cases r2 with
          | nil => rfl
          | cons cc r3 =>
            cases r3 with
            | nil => exact absurd (by rw [h1]; rfl) ht
            | cons dd r4 => rfl

/-- The toy GCM primitive of the C10 witness: it stores the plaintext's
character codes as the ciphertext and uses an empty tag; decryption maps
the codes back to characters, so it inverts encryption on the witness
input. -/
def gcmW : GcmCipher :=
  { enc := fun _ _ p => (p.map Char.toNat, [])
    dec := fun _ _ _ ct => some (ct.map Char.ofNat) }

theorem encrypt_decrypt_roundtrip_witness :
    decryptM gcmW [7] (encryptM gcmW [7] [3, 255] "ab") = some "ab"
    ∧ decryptM gcmW [7] none = none :=
  have h := encrypt_decrypt_roundtrip gcmW [7] [3, 255] "ab"
    (by decide) (by decide) (by decide) (by decide) (by decide)
  ⟨h.1, h.2.1⟩
